import Mathlib

/-!
# Per-app Language Preferences (Windhawk mod)

A shallow embedding of `src/mods/per-app-language-preferences.wh.cpp`.

* The global `int my_langid` and the set of hook requests handed to the host
  form the mod state `ModState`.
* Operating-system and Windhawk entry points the mod calls
  (`GetModuleFileNameW`, `Wh_GetStringSetting`, `Wh_GetIntSetting`,
  `PathMatchSpecExW`, `GetModuleHandle`, `GetProcAddress`,
  `Wh_SetFunctionHook`, the three original getters) are not part of the
  repository; they are fields of the `Host` record the functions take.
* The loop `for (int index = 0; ; index++)` has no bound of its own; it is
  embedded with a fuel argument and returns `none` when the fuel runs out.
  The counter is a `Nat`: a settings store cannot hold `2^31` entries, so the
  `int` counter never wraps.
* `short` results are integers in `[-32768, 32767]`; the conversion of the
  `int` cell to the `short` return type is `toShort`.
-/

namespace PerAppLanguage

/-! ## Constants and conversions -/

/-- The `HRESULT` value `S_OK`. -/
def S_OK : Int := 0

/-- The `HRESULT` value `S_FALSE`. -/
def S_FALSE : Int := 1

/-- The flag `PMSF_MULTIPLE` of `PathMatchSpecExW`. -/
def PMSF_MULTIPLE : Nat := 1

/-- Conversion of an `int` to `short` (two's complement, 16 bits), as done by
`return my_langid;` in a function whose return type is `short`. -/
def toShort (x : Int) : Int := (x + 32768) % 65536 - 32768

/-! ## Data model -/

/-- One entry of the `programList` setting: `glob` and `langId`. -/
structure Rule where
  glob : String
  langId : Int
deriving DecidableEq, Repr

/-- The three hooked kernel entry points. -/
inductive EntryPoint where
  | GetUserDefaultUILanguage
  | GetUserDefaultLangID
  | GetUserDefaultLCID
deriving DecidableEq, Repr

/-- The exported name passed to `GetProcAddress` for an entry point. -/
def EntryPoint.targetName : EntryPoint → String
  | .GetUserDefaultUILanguage => "GetUserDefaultUILanguage"
  | .GetUserDefaultLangID => "GetUserDefaultLangID"
  | .GetUserDefaultLCID => "GetUserDefaultLCID"

/-- A hook request accepted by `Wh_SetFunctionHook`: the target address and
the wrapper that is to replace it. -/
structure HookRequest where
  targetFunction : Nat
  hookFunction : EntryPoint
deriving DecidableEq, Repr

/-- The mod's own state: the global `my_langid`, the hook requests the mod has
handed to the host, and the rest of the process state `world` that only the
original getters read or write. -/
structure ModState (σ : Type) where
  my_langid : Int
  hooks : List HookRequest
  world : σ
deriving DecidableEq

/-- The state at load time: `int my_langid = -1;`, no hook requested. -/
def ModState.initial {σ : Type} (w : σ) : ModState σ :=
  { my_langid := -1, hooks := [], world := w }

/-- The external functions the mod calls. Handles and addresses are numbers,
`0` standing for `NULL`.
* `GetModuleFileNameW` is the outcome of `GetModuleFileNameW(NULL, buf, 2048)`:
  the returned length (`0` on failure) and the text found in the buffer
  after the call;
* `Wh_GetStringSetting i` and `Wh_GetIntSetting i` answer
  `programList[i].glob` and `programList[i].langId`;
* `PathMatchSpecExW file spec flags` is the `HRESULT` of the matcher;
* `Wh_SetFunctionHook target` tells whether the host accepts a hook request
  for that address;
* `Original e` is the getter the wrapper of `e` forwards to. -/
structure Host (σ : Type) where
  GetModuleFileNameW : Nat × String
  Wh_GetStringSetting : Nat → String
  Wh_GetIntSetting : Nat → Int
  PathMatchSpecExW : String → String → Nat → Int
  GetModuleHandle : String → Nat
  GetProcAddress : Nat → String → Nat
  Wh_SetFunctionHook : Nat → Bool
  Original : EntryPoint → σ → Int × σ

/-! ## The wrappers (source lines 70-99) -/

/-- Embedding of `GetUserDefaultUILanguage_Hook`. -/
def GetUserDefaultUILanguage_Hook {σ : Type} (h : Host σ) (s : ModState σ) :
    Int × ModState σ :=
  if s.my_langid = -1 then
    let r := h.Original .GetUserDefaultUILanguage s.world
    (r.1, { s with world := r.2 })
  else
    (toShort s.my_langid, s)

/-- Embedding of `GetUserDefaultLangID_Hook`. -/
def GetUserDefaultLangID_Hook {σ : Type} (h : Host σ) (s : ModState σ) :
    Int × ModState σ :=
  if s.my_langid = -1 then
    let r := h.Original .GetUserDefaultLangID s.world
    (r.1, { s with world := r.2 })
  else
    (toShort s.my_langid, s)

/-- Embedding of `GetUserDefaultLCID_Hook`. -/
def GetUserDefaultLCID_Hook {σ : Type} (h : Host σ) (s : ModState σ) :
    Int × ModState σ :=
  if s.my_langid = -1 then
    let r := h.Original .GetUserDefaultLCID s.world
    (r.1, { s with world := r.2 })
  else
    (toShort s.my_langid, s)

/-- The wrapper installed for an entry point. -/
def hookOf {σ : Type} : EntryPoint → Host σ → ModState σ → Int × ModState σ
  | .GetUserDefaultUILanguage => GetUserDefaultUILanguage_Hook
  | .GetUserDefaultLangID => GetUserDefaultLangID_Hook
  | .GetUserDefaultLCID => GetUserDefaultLCID_Hook

/-! ## Recomputation (source lines 101-122) -/

/-- What one run of the probing loop produced: the local `lang_id` at the
`break`, and the indices at which `Wh_GetStringSetting` was called, in
order. -/
structure LoopResult where
  lang_id : Int
  probes : List Nat
deriving DecidableEq, Repr

/-- The loop `for (int index = 0; ; index++)` of `determine_my_langid`,
started at `index` with `lang_id = -1`. `none` means the fuel ran out before
a `break`. -/
def determine_loop {σ : Type} (h : Host σ) (filename_buf : String) :
    Nat → Nat → Option LoopResult
  | 0, _ => none
  | fuel + 1, index =>
    let glob := h.Wh_GetStringSetting index
    if glob = "" then
      some { lang_id := -1, probes := [index] }
    else if S_OK = h.PathMatchSpecExW filename_buf glob PMSF_MULTIPLE then
      some { lang_id := h.Wh_GetIntSetting index, probes := [index] }
    else
      match determine_loop h filename_buf fuel (index + 1) with
      | none => none
      | some r => some { r with probes := index :: r.probes }

/-- Embedding of `determine_my_langid`: the buffer is filled by
`GetModuleFileNameW` (whose return value is not looked at), the loop runs from
index `0`, and its `lang_id` is stored in `my_langid`. -/
def determine_my_langid {σ : Type} (fuel : Nat) (h : Host σ) (s : ModState σ) :
    Option (ModState σ) :=
  let filename_buf := h.GetModuleFileNameW.2
  match determine_loop h filename_buf fuel 0 with
  | none => none
  | some r => some { s with my_langid := r.lang_id }

/-! ## Installation (source lines 126-173) -/

/-- Model of the host call `Wh_SetFunctionHook(target, hook, &original)`: when
the host accepts, the request is recorded; otherwise nothing changes. -/
def Wh_SetFunctionHook {σ : Type} (h : Host σ) (s : ModState σ)
    (targetFunction : Nat) (hookFunction : EntryPoint) : Bool × ModState σ :=
  if h.Wh_SetFunctionHook targetFunction then
    (true, { s with hooks := s.hooks ++ [⟨targetFunction, hookFunction⟩] })
  else
    (false, s)

/-- Embedding of the lambda `setKernelFunctionHook` of
`HookKernel32DllSymbols`. -/
def setKernelFunctionHook {σ : Type} (h : Host σ)
    (kernelBaseModule kernel32Module : Nat) (s : ModState σ)
    (targetName : String) (hookFunction : EntryPoint) : Bool × ModState σ :=
  let targetFunction := h.GetProcAddress kernelBaseModule targetName
  if targetFunction = 0 then
    let targetFunction := h.GetProcAddress kernel32Module targetName
    if targetFunction = 0 then
      (false, s)
    else
      Wh_SetFunctionHook h s targetFunction hookFunction
  else
    Wh_SetFunctionHook h s targetFunction hookFunction

/-- Embedding of `HookKernel32DllSymbols`: the three requests joined by the
short-circuit `&&`. -/
def HookKernel32DllSymbols {σ : Type} (h : Host σ) (s : ModState σ) :
    Bool × ModState σ :=
  let kernelBaseModule := h.GetModuleHandle "kernelbase.dll"
  let kernel32Module := h.GetModuleHandle "kernel32.dll"
  let r1 := setKernelFunctionHook h kernelBaseModule kernel32Module s
    "GetUserDefaultUILanguage" .GetUserDefaultUILanguage
  if r1.1 then
    let r2 := setKernelFunctionHook h kernelBaseModule kernel32Module r1.2
      "GetUserDefaultLangID" .GetUserDefaultLangID
    if r2.1 then
      setKernelFunctionHook h kernelBaseModule kernel32Module r2.2
        "GetUserDefaultLCID" .GetUserDefaultLCID
    else
      (false, r2.2)
  else
    (false, r1.2)

/-- Embedding of `ModInit`. -/
def ModInit {σ : Type} (h : Host σ) (s : ModState σ) : Bool × ModState σ :=
  let r := HookKernel32DllSymbols h s
  if !r.1 then
    (false, r.2)
  else
    (true, r.2)

/-- Embedding of `Wh_ModInit`: recomputation, then `ModInit`. -/
def Wh_ModInit {σ : Type} (fuel : Nat) (h : Host σ) (s : ModState σ) :
    Option (Bool × ModState σ) :=
  match determine_my_langid fuel h s with
  | none => none
  | some s1 => some (ModInit h s1)

/-- Embedding of `Wh_ModSettingsChanged`. -/
def Wh_ModSettingsChanged {σ : Type} (fuel : Nat) (h : Host σ) (s : ModState σ) :
    Option (ModState σ) :=
  determine_my_langid fuel h s

/-! ## The settings store and the matcher used for concrete runs -/

/-- Modelled from the spec: `Wh_GetStringSetting` belongs to the Windhawk
host, not to the mod. For a stored rule list it answers the pattern at the
index, and the empty string at every index past the end of the list. -/
def globAt (rules : List Rule) (index : Nat) : String :=
  match rules.get? index with
  | some r => r.glob
  | none => ""

/-- Modelled from the spec: `Wh_GetIntSetting` belongs to the Windhawk host.
For a stored rule list it answers the `langId` at the index, and `0` at every
index past the end of the list. -/
def langIdAt (rules : List Rule) (index : Nat) : Int :=
  match rules.get? index with
  | some r => r.langId
  | none => 0

/-- The host `h` with the settings store holding `rules`. -/
def Host.withRules {σ : Type} (h : Host σ) (rules : List Rule) : Host σ :=
  { h with Wh_GetStringSetting := globAt rules, Wh_GetIntSetting := langIdAt rules }

/-- Lower-casing of an ASCII letter, other characters unchanged. -/
def lowerAscii (c : Char) : Nat :=
  if 65 ≤ c.toNat ∧ c.toNat ≤ 90 then c.toNat + 32 else c.toNat

/-- Wildcard match of one pattern against a text: `*` is any run of
characters (also the empty one), `?` is any single character, letters compare
without case. -/
def globMatch : List Char → List Char → Bool
  | [], t => t.isEmpty
  | p :: ps, t =>
    if p = '*' then
      t.tails.any (fun u => globMatch ps u)
    else
      match t with
      | [] => false
      | c :: cs =>
        (p = '?' || lowerAscii p == lowerAscii c) && globMatch ps cs

/-- Splitting of a pattern at its semicolons. -/
def splitSemicolon : List Char → List (List Char)
  | [] => [[]]
  | c :: cs =>
    match splitSemicolon cs with
    | [] => [[]]
    | first :: more => if c = ';' then [] :: first :: more else (c :: first) :: more

/-- Modelled from the spec: `PathMatchSpecExW` is an operating-system function.
This stand-in follows section 4.2 step 3: the pattern is a semicolon-separated
union of wildcard patterns, and the path matches when it matches one of them;
the answer is `S_OK` on a match and `S_FALSE` otherwise. -/
def pathMatchModel (pszFile pszSpec : String) (_dwFlags : Nat) : Int :=
  if (splitSemicolon pszSpec.data).any (fun p => globMatch p pszFile.data) then S_OK
  else S_FALSE

/-- The answers of the original getters in concrete runs. -/
def sampleSystem : EntryPoint → Int
  | .GetUserDefaultUILanguage => 2052
  | .GetUserDefaultLangID => 1036
  | .GetUserDefaultLCID => 1040

/-- A host for concrete runs: the path resolves to `path`, the store holds
`rules`, the matcher is `pathMatchModel`, both libraries are loaded, every
name in `exports` is exported by `kernelbase.dll` (handle `1`) at a non-null
address, every hook request is accepted, and each original getter
answers its `sampleSystem` value and counts the call in the world state. -/
def sampleHost (path : String) (rules : List Rule) (exports : List String) : Host Nat :=
  { GetModuleFileNameW := (path.length, path)
    Wh_GetStringSetting := globAt rules
    Wh_GetIntSetting := langIdAt rules
    PathMatchSpecExW := pathMatchModel
    GetModuleHandle := fun name => if name = "kernelbase.dll" then 1 else 2
    GetProcAddress := fun m name =>
      if m = 1 then (match exports.indexOf? name with
        | some i => 1000 + i
        | none => 0) else 0
    Wh_SetFunctionHook := fun _ => true
    Original := fun e w => (sampleSystem e, w + 1) }

/-- The `HRESULT` value `E_INVALIDARG` (`0x80070057` as a signed 32-bit
number). -/
def E_INVALIDARG : Int := -2147024809

/-- The host `sampleHost path [] []` with a matcher that rejects
every pattern starting with `[` with `E_INVALIDARG` and otherwise
answers as `pathMatchModel`. -/
def faultyHost (path : String) : Host Nat :=
  { sampleHost path [] [] with
    PathMatchSpecExW := fun pszFile pszSpec dwFlags =>
      if pszSpec.data.head? = some '[' then E_INVALIDARG
      else pathMatchModel pszFile pszSpec dwFlags }

/-! ## Reference definitions in the words of the specification -/

/-- The rule sequence as the specification reads it: the entries before the
first one whose pattern is empty. -/
def configured (rules : List Rule) : List Rule :=
  rules.takeWhile (fun r => decide (r.glob ≠ ""))

/-- First-match resolution in the specification's words: the `languageId` of
the first configured rule whose pattern matches the path, else `-1`. -/
def firstMatch (matcher : String → String → Nat → Int) (path : String)
    (rules : List Rule) : Int :=
  match (configured rules).find? (fun r => decide (S_OK = matcher path r.glob PMSF_MULTIPLE)) with
  | some r => r.langId
  | none => -1

/-! ## Lifecycle events -/

/-- What the host can do to the loaded mod: activation and the
settings-changed notification (each with the rule list then in the store),
and a call of one of the three wrappers. -/
inductive Event where
  | Wh_ModInit (rules : List Rule)
  | Wh_ModSettingsChanged (rules : List Rule)
  | call (e : EntryPoint)

/-- The rule list an event loads, if it loads one. -/
def Event.snapshot : Event → Option (List Rule)
  | .Wh_ModInit rules => some rules
  | .Wh_ModSettingsChanged rules => some rules
  | .call _ => none

/-- The rule list loaded by the most recent loading event of a sequence. -/
def lastSnapshot : List Event → Option (List Rule)
  | [] => none
  | ev :: evs =>
    match lastSnapshot evs with
    | some rules => some rules
    | none => ev.snapshot

/-- One lifecycle event applied to the mod state. -/
def step {σ : Type} (fuel : Nat) (h : Host σ) (s : ModState σ) :
    Event → Option (ModState σ)
  | .Wh_ModInit rules =>
    match Wh_ModInit fuel (h.withRules rules) s with
    | none => none
    | some r => some r.2
  | .Wh_ModSettingsChanged rules => Wh_ModSettingsChanged fuel (h.withRules rules) s
  | .call e => some (hookOf e h s).2

/-- A sequence of lifecycle events applied in order. -/
def run {σ : Type} (fuel : Nat) (h : Host σ) : ModState σ → List Event →
    Option (ModState σ)
  | s, [] => some s
  | s, ev :: evs =>
    match step fuel h s ev with
    | none => none
    | some s1 => run fuel h s1 evs


/-! ## Activation as the host performs it -/

/-- Modelled from the spec: the procedure by which the Windhawk host loads the
mod is not in `src/`. Following sections 6 and 7, the host invokes the
activation entry point `Wh_ModInit` once. When it reports success, the hook
requests registered during it are put in force. When it reports failure, the
mod is not loaded and the host's hook-removal facility leaves none of its
requests in force. The result is the signal of `Wh_ModInit` together with the
entry points whose wrappers are in force afterwards. -/
def hostActivate {σ : Type} (fuel : Nat) (h : Host σ) (s : ModState σ) :
    Option (Bool × List EntryPoint) :=
  match Wh_ModInit fuel h s with
  | none => none
  | some r =>
    if r.1 then some (true, r.2.hooks.map (fun q => q.hookFunction))
    else some (false, [])

/-! ## Vocabulary for the statements -/

/-- The loop leaves at index `i`: the pattern there is empty, or it matches. -/
def stops {σ : Type} (h : Host σ) (filename_buf : String) (i : Nat) : Prop :=
  h.Wh_GetStringSetting i = "" ∨
    S_OK = h.PathMatchSpecExW filename_buf (h.Wh_GetStringSetting i) PMSF_MULTIPLE

instance stopsDecidable {σ : Type} (h : Host σ) (filename_buf : String) (i : Nat) :
    Decidable (stops h filename_buf i) :=
  inferInstanceAs (Decidable (_ ∨ _))

/-- The value of `lang_id` when the loop leaves at index `i`. -/
def exitValue {σ : Type} (h : Host σ) (i : Nat) : Int :=
  if h.Wh_GetStringSetting i = "" then -1 else h.Wh_GetIntSetting i

/-- The address `setKernelFunctionHook` looks up for an entry point:
`kernelbase.dll` first, then `kernel32.dll`; `0` when neither exports it. -/
def locate {σ : Type} (h : Host σ) (e : EntryPoint) : Nat :=
  if h.GetProcAddress (h.GetModuleHandle "kernelbase.dll") e.targetName = 0 then
    h.GetProcAddress (h.GetModuleHandle "kernel32.dll") e.targetName
  else
    h.GetProcAddress (h.GetModuleHandle "kernelbase.dll") e.targetName

/-- The entry point can be located and the host accepts a hook on it. -/
def hookable {σ : Type} (h : Host σ) (e : EntryPoint) : Bool :=
  decide (locate h e ≠ 0) && h.Wh_SetFunctionHook (locate h e)

/-- The entry points in the order `HookKernel32DllSymbols` requests them. -/
def hookOrder : List EntryPoint :=
  [.GetUserDefaultUILanguage, .GetUserDefaultLangID, .GetUserDefaultLCID]

/-! ## The probing loop -/

theorem determine_loop_exit {σ : Type} (h : Host σ) (buf : String) :
    ∀ (j fuel index : Nat), j < fuel →
      (∀ m, m < j → ¬ stops h buf (index + m)) → stops h buf (index + j) →
      determine_loop h buf fuel index =
        some { lang_id := exitValue h (index + j), probes := List.range' index (j + 1) } := by
  intro j
  induction j with
  | zero =>
    intro fuel index hf _ hs
    obtain ⟨f, rfl⟩ : ∃ f, fuel = f + 1 := ⟨fuel - 1, by omega⟩
    simp only [Nat.add_zero] at hs ⊢
    unfold determine_loop
    by_cases he : h.Wh_GetStringSetting index = ""
    · simp [he, exitValue]
    · rcases hs with hs | hs
      · exact absurd hs he
      · simp [he, ← hs, exitValue]
  | succ j ih =>
    intro fuel index hf hno hs
    obtain ⟨f, rfl⟩ : ∃ f, fuel = f + 1 := ⟨fuel - 1, by omega⟩
    have h0 : ¬ stops h buf index := by simpa using hno 0 (by omega)
    have hrec := ih f (index + 1) (by omega)
      (fun m hm => by
        have := hno (m + 1) (by omega)
        rwa [show index + (m + 1) = index + 1 + m by omega] at this)
      (by rwa [show index + 1 + j = index + (j + 1) by omega])
    simp only [stops, not_or] at h0
    unfold determine_loop
    simp only [h0.1, h0.2, if_false, hrec]
    simp [List.range'_succ, show index + 1 + j = index + (j + 1) by omega]

theorem determine_loop_first_stop {σ : Type} (h : Host σ) (buf : String) (k : Nat)
    (hk : h.Wh_GetStringSetting k = "") :
    ∃ j, j ≤ k ∧ stops h buf j ∧ (∀ m, m < j → ¬ stops h buf m) ∧
      ∀ fuel, j < fuel → determine_loop h buf fuel 0 =
        some { lang_id := exitValue h j, probes := List.range (j + 1) } := by
  have hex : ∃ j, stops h buf j := ⟨k, Or.inl hk⟩
  refine ⟨Nat.find hex, Nat.find_min' hex (Or.inl hk), Nat.find_spec hex,
    fun m hm => Nat.find_min hex hm, fun fuel hf => ?_⟩
  have := determine_loop_exit h buf (Nat.find hex) fuel 0 hf
    (fun m hm => by simpa using Nat.find_min hex hm) (by simpa using Nat.find_spec hex)
  simpa [List.range_eq_range'] using this


/-! ## The list-backed store -/

theorem globAt_length (rules : List Rule) : globAt rules rules.length = "" := by
  simp [globAt]

theorem firstMatch_nil (pms : String → String → Nat → Int) (buf : String) :
    firstMatch pms buf [] = -1 := by
  simp [firstMatch, configured]

theorem firstMatch_cons (pms : String → String → Nat → Int) (buf : String)
    (r : Rule) (rest : List Rule) :
    firstMatch pms buf (r :: rest) =
      if r.glob = "" then -1
      else if S_OK = pms buf r.glob PMSF_MULTIPLE then r.langId
      else firstMatch pms buf rest := by
  by_cases he : r.glob = ""
  · simp [firstMatch, configured, he]
  · by_cases hm : S_OK = pms buf r.glob PMSF_MULTIPLE
    · simp [firstMatch, configured, he, List.takeWhile_cons, List.find?_cons, ← hm]
    · simp [firstMatch, configured, he, List.takeWhile_cons, List.find?_cons, hm]

theorem determine_loop_drop {σ : Type} (h : Host σ) (rules : List Rule) (buf : String) :
    ∀ (fuel index : Nat), rules.length - index < fuel →
      (determine_loop (h.withRules rules) buf fuel index).map (fun r => r.lang_id) =
        some (firstMatch h.PathMatchSpecExW buf (rules.drop index)) := by
  intro fuel
  induction fuel with
  | zero => intro index hf; omega
  | succ f ih =>
    intro index hf
    unfold determine_loop
    by_cases hi : index < rules.length
    · have hd : rules.drop index = rules[index] :: rules.drop (index + 1) := by
        simp
      have hg : (h.withRules rules).Wh_GetStringSetting index = rules[index].glob := by
        simp [Host.withRules, globAt, List.getElem?_eq_getElem hi]
      have hl : (h.withRules rules).Wh_GetIntSetting index = rules[index].langId := by
        simp [Host.withRules, langIdAt, List.getElem?_eq_getElem hi]
      have hp : (h.withRules rules).PathMatchSpecExW = h.PathMatchSpecExW := rfl
      rw [hd, firstMatch_cons]
      simp only [hg, hl, hp]
      by_cases he : rules[index].glob = ""
      · simp [he]
      · by_cases hm : S_OK = h.PathMatchSpecExW buf rules[index].glob PMSF_MULTIPLE
        · simp [he, ← hm]
        · have hrec := ih (index + 1) (by omega)
          simp only [he, hm, if_false]
          cases hr : determine_loop (h.withRules rules) buf f (index + 1) with
          | none => simp [hr] at hrec
          | some r => simpa [hr] using hrec
    · have hg : (h.withRules rules).Wh_GetStringSetting index = "" := by
        simp [Host.withRules, globAt, List.getElem?_eq_none (Nat.le_of_not_lt hi)]
      simp [hg, List.drop_eq_nil_of_le (Nat.le_of_not_lt hi), firstMatch_nil]

theorem determine_my_langid_eq_firstMatch {σ : Type} (h : Host σ) (rules : List Rule)
    (s : ModState σ) (fuel : Nat) (hfuel : rules.length < fuel) :
    determine_my_langid fuel (h.withRules rules) s =
      some { s with my_langid := firstMatch h.PathMatchSpecExW h.GetModuleFileNameW.2 rules } := by
  have hl := determine_loop_drop h rules h.GetModuleFileNameW.2 fuel 0 (by omega)
  have hb : (h.withRules rules).GetModuleFileNameW = h.GetModuleFileNameW := rfl
  unfold determine_my_langid
  simp only [hb]
  cases hr : determine_loop (h.withRules rules) h.GetModuleFileNameW.2 fuel 0 with
  | none => simp [hr] at hl
  | some r =>
    simp only [hr, Option.map_some', List.drop_zero, Option.some.injEq] at hl
    simp [hl]

theorem firstMatch_skip (pms : String → String → Nat → Int) (buf : String)
    (pre rest : List Rule) (r : Rule) (hne : r.glob ≠ "")
    (hbad : pms buf r.glob PMSF_MULTIPLE ≠ S_OK) :
    firstMatch pms buf (pre ++ r :: rest) = firstMatch pms buf (pre ++ rest) := by
  induction pre with
  | nil =>
    have hbad2 : ¬ S_OK = pms buf r.glob PMSF_MULTIPLE := fun hh => hbad hh.symm
    simp [firstMatch_cons, hne, hbad2]
  | cons a pre ih => simp [firstMatch_cons, ih]


/-! ## Recomputation: first match, no match, terminator -/

/-- C1. For every rule list and every path in the buffer: when `i` is the
first index, among the entries before the first empty pattern, whose pattern
matches, recomputation returns and stores exactly the `langId` kept at index
`i`, whatever the later rules are and whatever that `langId` is (also `-1`). -/
theorem determine_my_langid_first_match {σ : Type} (h : Host σ) (rules : List Rule)
    (s : ModState σ) (i fuel : Nat)
    (hne : ∀ j, j ≤ i → globAt rules j ≠ "")
    (hbefore : ∀ j, j < i →
      S_OK ≠ h.PathMatchSpecExW h.GetModuleFileNameW.2 (globAt rules j) PMSF_MULTIPLE)
    (hmatch : S_OK = h.PathMatchSpecExW h.GetModuleFileNameW.2 (globAt rules i) PMSF_MULTIPLE)
    (hfuel : i < fuel) :
    determine_my_langid fuel (h.withRules rules) s =
      some { s with my_langid := langIdAt rules i } := by
  have hloop := determine_loop_exit (h.withRules rules) h.GetModuleFileNameW.2 i fuel 0 hfuel
    (fun m hm => by
      simp only [stops, Host.withRules, Nat.zero_add, not_or]
      exact ⟨hne m (by omega), hbefore m hm⟩)
    (by
      simp only [stops, Host.withRules, Nat.zero_add]
      exact Or.inr hmatch)
  have hb : (h.withRules rules).GetModuleFileNameW = h.GetModuleFileNameW := rfl
  have hv : exitValue (h.withRules rules) (0 + i) = langIdAt rules i := by
    simp [exitValue, Host.withRules, hne i le_rfl]
  unfold determine_my_langid
  simp only [hb, hloop, hv]

/-- Witness of C1 on the two scenarios of the specification: the first rule
wins although it carries the sentinel, and `notepad.exe` resolves to 1033. -/
theorem determine_my_langid_first_match_witness :
    determine_my_langid 3
        ((sampleHost "C:\\bin\\foo.exe" [] []).withRules
          [⟨"*\\foo.exe", -1⟩, ⟨"*\\foo.exe", 2052⟩])
        { my_langid := 7, hooks := [], world := 0 } =
      some { my_langid := -1, hooks := [], world := 0 } ∧
    determine_my_langid 2
        ((sampleHost "C:\\Windows\\notepad.exe" [] []).withRules [⟨"*\\notepad.exe", 1033⟩])
        (ModState.initial 0) =
      some { my_langid := 1033, hooks := [], world := 0 } :=
  ⟨determine_my_langid_first_match (sampleHost "C:\\bin\\foo.exe" [] [])
      [⟨"*\\foo.exe", -1⟩, ⟨"*\\foo.exe", 2052⟩]
      { my_langid := 7, hooks := [], world := 0 } 0 3
      (by decide) (by decide) (by decide) (by decide),
   determine_my_langid_first_match (sampleHost "C:\\Windows\\notepad.exe" [] [])
      [⟨"*\\notepad.exe", 1033⟩] (ModState.initial 0) 0 2
      (by decide) (by decide) (by decide) (by decide)⟩

/-- C2. For every rule list and every path in the buffer: when no rule up to
the terminating empty pattern matches (the list may be empty, or start with
an empty pattern), recomputation returns and stores `-1`, whatever the cell
held before. -/
theorem determine_my_langid_no_match {σ : Type} (h : Host σ) (rules : List Rule)
    (s : ModState σ) (fuel : Nat) (hfuel : rules.length < fuel)
    (hno : ∀ j, (∀ m, m ≤ j → globAt rules m ≠ "") →
      S_OK ≠ h.PathMatchSpecExW h.GetModuleFileNameW.2 (globAt rules j) PMSF_MULTIPLE) :
    determine_my_langid fuel (h.withRules rules) s = some { s with my_langid := -1 } := by
  obtain ⟨j, hjk, hstop, hmin, hrun⟩ :=
    determine_loop_first_stop (h.withRules rules) h.GetModuleFileNameW.2 rules.length
      (globAt_length rules)
  have hb : (h.withRules rules).GetModuleFileNameW = h.GetModuleFileNameW := rfl
  have hempty : globAt rules j = "" := by
    by_contra hne
    rcases hstop with he | hm
    · exact hne he
    · refine hno j (fun m hmj => ?_) hm
      rcases Nat.lt_or_eq_of_le hmj with hlt | heq
      · exact fun he => hmin m hlt (Or.inl he)
      · exact heq ▸ hne
  have hv : exitValue (h.withRules rules) j = -1 := by
    simp [exitValue, Host.withRules, hempty]
  unfold determine_my_langid
  simp only [hb, hrun fuel (by omega), hv]

/-- Witness of C2: `calc.exe` against the `notepad.exe` rule, and the same path
against the empty rule list, each starting from a cell that holds 1033. -/
theorem determine_my_langid_no_match_witness :
    determine_my_langid 2
        ((sampleHost "C:\\Windows\\calc.exe" [] []).withRules [⟨"*\\notepad.exe", 1033⟩])
        { my_langid := 1033, hooks := [], world := 0 } =
      some { my_langid := -1, hooks := [], world := 0 } ∧
    determine_my_langid 1 ((sampleHost "C:\\Windows\\calc.exe" [] []).withRules [])
        { my_langid := 1033, hooks := [], world := 0 } =
      some { my_langid := -1, hooks := [], world := 0 } :=
  ⟨determine_my_langid_no_match (sampleHost "C:\\Windows\\calc.exe" [] [])
    [⟨"*\\notepad.exe", 1033⟩] { my_langid := 1033, hooks := [], world := 0 } 2
    (by decide)
    (by
      intro j hj
      rcases j with _ | j
      · decide
      · exact absurd (by simp [globAt]) (hj 1 (by omega))),
   determine_my_langid_no_match (sampleHost "C:\\Windows\\calc.exe" [] [])
    [] { my_langid := 1033, hooks := [], world := 0 } 1
    (by decide)
    (fun j hj => absurd (by simp [globAt]) (hj 0 (Nat.zero_le j)))⟩

/-- C3. Two rule lists that agree on the indices `0..k`, with an empty pattern
at index `k`, give the same recomputation result for every path in the
buffer: nothing past `k` is consulted. In particular, when no rule before `k`
matches, the result is `-1`, whatever the rules after `k` are. -/
theorem determine_my_langid_terminator {σ : Type} (h : Host σ) (R1 R2 : List Rule)
    (k fuel : Nat) (s : ModState σ)
    (hagree : ∀ j, j ≤ k → R1.get? j = R2.get? j)
    (hempty : globAt R1 k = "")
    (hfuel : k < fuel) :
    (∃ s', determine_my_langid fuel (h.withRules R1) s = some s' ∧
        determine_my_langid fuel (h.withRules R2) s = some s') ∧
      ((∀ j, j < k →
          S_OK ≠ h.PathMatchSpecExW h.GetModuleFileNameW.2 (globAt R1 j) PMSF_MULTIPLE) →
        determine_my_langid fuel (h.withRules R1) s = some { s with my_langid := -1 } ∧
        determine_my_langid fuel (h.withRules R2) s = some { s with my_langid := -1 }) := by
  obtain ⟨j, hjk, hstop, hmin, hrun⟩ :=
    determine_loop_first_stop (h.withRules R1) h.GetModuleFileNameW.2 k hempty
  have hg : ∀ m, m ≤ k → globAt R2 m = globAt R1 m := fun m hm => by
    unfold globAt
    rw [hagree m hm]
  have hl : ∀ m, m ≤ k → langIdAt R2 m = langIdAt R1 m := fun m hm => by
    unfold langIdAt
    rw [hagree m hm]
  have hst : ∀ m, m ≤ k → (stops (h.withRules R2) h.GetModuleFileNameW.2 m ↔
      stops (h.withRules R1) h.GetModuleFileNameW.2 m) := fun m hm => by
    simp [stops, Host.withRules, hg m hm]
  have hrun2 := determine_loop_exit (h.withRules R2) h.GetModuleFileNameW.2 j fuel 0
    (by omega)
    (fun m hm => by
      rw [Nat.zero_add, hst m (by omega)]
      exact hmin m hm)
    (by
      rw [Nat.zero_add, hst j hjk]
      exact hstop)
  have hv : exitValue (h.withRules R2) (0 + j) = exitValue (h.withRules R1) j := by
    simp [exitValue, Host.withRules, hg j hjk, hl j hjk]
  have hb1 : (h.withRules R1).GetModuleFileNameW = h.GetModuleFileNameW := rfl
  have hb2 : (h.withRules R2).GetModuleFileNameW = h.GetModuleFileNameW := rfl
  have e1 : determine_my_langid fuel (h.withRules R1) s =
      some { s with my_langid := exitValue (h.withRules R1) j } := by
    unfold determine_my_langid
    simp only [hb1, hrun fuel (by omega)]
  have e2 : determine_my_langid fuel (h.withRules R2) s =
      some { s with my_langid := exitValue (h.withRules R1) j } := by
    unfold determine_my_langid
    simp only [hb2, hrun2, hv, List.range_eq_range']
  refine ⟨⟨_, e1, e2⟩, fun hno => ?_⟩
  have hej : globAt R1 j = "" := by
    by_contra hne
    rcases hstop with he | hm
    · exact hne he
    · rcases Nat.lt_or_eq_of_le hjk with hlt | heq
      · exact hno j hlt hm
      · exact hne (heq ▸ hempty)
  have hv1 : exitValue (h.withRules R1) j = -1 := by
    simp [exitValue, Host.withRules, hej]
  rw [e1, e2, hv1]
  exact ⟨rfl, rfl⟩

/-- Witness of C3: a rule after the empty pattern would match the path, and
the result is `-1` with it and without it. -/
theorem determine_my_langid_terminator_witness :
    determine_my_langid 2
        ((sampleHost "C:\\bin\\foo.exe" [] []).withRules
          [⟨"*\\bar.exe", 1031⟩, ⟨"", 1036⟩, ⟨"*\\foo.exe", 2052⟩])
        { my_langid := 7, hooks := [], world := 0 } =
      some { my_langid := -1, hooks := [], world := 0 } ∧
    determine_my_langid 2
        ((sampleHost "C:\\bin\\foo.exe" [] []).withRules
          [⟨"*\\bar.exe", 1031⟩, ⟨"", 1036⟩])
        { my_langid := 7, hooks := [], world := 0 } =
      some { my_langid := -1, hooks := [], world := 0 } :=
  (determine_my_langid_terminator (sampleHost "C:\\bin\\foo.exe" [] [])
      [⟨"*\\bar.exe", 1031⟩, ⟨"", 1036⟩, ⟨"*\\foo.exe", 2052⟩]
      [⟨"*\\bar.exe", 1031⟩, ⟨"", 1036⟩] 1 2
      { my_langid := 7, hooks := [], world := 0 }
      (by decide) (by decide) (by decide)).2 (by decide)


/-! ## The wrappers -/

/-- C4. For each of the three wrappers and every original: when `my_langid`
is `-1`, the wrapper calls its own original once and returns exactly what
that original returns. -/
theorem hooks_pass_through {σ : Type} (h : Host σ) (s : ModState σ)
    (hs : s.my_langid = -1) :
    GetUserDefaultUILanguage_Hook h s =
        ((h.Original .GetUserDefaultUILanguage s.world).1,
          { s with world := (h.Original .GetUserDefaultUILanguage s.world).2 }) ∧
      GetUserDefaultLangID_Hook h s =
        ((h.Original .GetUserDefaultLangID s.world).1,
          { s with world := (h.Original .GetUserDefaultLangID s.world).2 }) ∧
      GetUserDefaultLCID_Hook h s =
        ((h.Original .GetUserDefaultLCID s.world).1,
          { s with world := (h.Original .GetUserDefaultLCID s.world).2 }) := by
  simp [GetUserDefaultUILanguage_Hook, GetUserDefaultLangID_Hook, GetUserDefaultLCID_Hook, hs]

/-- Witness of C4: with the cell at `-1`, each wrapper answers the value of
its own original, and the call counter of the originals goes up by one. -/
theorem hooks_pass_through_witness :
    GetUserDefaultUILanguage_Hook (sampleHost "C:\\a.exe" [] []) (ModState.initial 0) =
        (2052, { my_langid := -1, hooks := [], world := 1 }) ∧
      GetUserDefaultLangID_Hook (sampleHost "C:\\a.exe" [] []) (ModState.initial 0) =
        (1036, { my_langid := -1, hooks := [], world := 1 }) ∧
      GetUserDefaultLCID_Hook (sampleHost "C:\\a.exe" [] []) (ModState.initial 0) =
        (1040, { my_langid := -1, hooks := [], world := 1 }) :=
  hooks_pass_through (sampleHost "C:\\a.exe" [] []) (ModState.initial 0) (by decide)

/-- C5 as stated fails: with the cell holding the locale identifier 66567
(`0x00010407`), which is not `-1`, the wrapper `GetUserDefaultLCID_Hook`
returns 1031, not 66567: its return type is `short`. -/
theorem hooks_override_truncates :
    (66567 : Int) ≠ -1 ∧
      (GetUserDefaultLCID_Hook (sampleHost "C:\\a.exe" [] [])
        { my_langid := 66567, hooks := [], world := 0 }).1 = 1031 ∧
      (GetUserDefaultLCID_Hook (sampleHost "C:\\a.exe" [] [])
        { my_langid := 66567, hooks := [], world := 0 }).1 ≠ 66567 := by
  decide

/-- C5, amended. For each of the three wrappers and every value `V` other
than `-1` in the cell: the wrapper does not call the original (the result
does not depend on the host, and the state, world included, is unchanged) and
returns `V` converted to `short`; that is `V` itself whenever
`-32768 ≤ V ≤ 32767`. -/
theorem hooks_override {σ : Type} (h : Host σ) (s : ModState σ)
    (hs : s.my_langid ≠ -1) :
    GetUserDefaultUILanguage_Hook h s = (toShort s.my_langid, s) ∧
      GetUserDefaultLangID_Hook h s = (toShort s.my_langid, s) ∧
      GetUserDefaultLCID_Hook h s = (toShort s.my_langid, s) ∧
      (-32768 ≤ s.my_langid → s.my_langid ≤ 32767 → toShort s.my_langid = s.my_langid) := by
  refine ⟨?_, ?_, ?_, ?_⟩
  · simp [GetUserDefaultUILanguage_Hook, hs]
  · simp [GetUserDefaultLangID_Hook, hs]
  · simp [GetUserDefaultLCID_Hook, hs]
  · intro hlo hhi
    unfold toShort
    omega

/-- Witness of C5, amended: with the cell at 1033 each wrapper answers 1033
and the call counter of the originals stays at `0`. -/
theorem hooks_override_witness :
    GetUserDefaultUILanguage_Hook (sampleHost "C:\\a.exe" [] [])
        { my_langid := 1033, hooks := [], world := 0 } =
        (1033, { my_langid := 1033, hooks := [], world := 0 }) ∧
      GetUserDefaultLangID_Hook (sampleHost "C:\\a.exe" [] [])
        { my_langid := 1033, hooks := [], world := 0 } =
        (1033, { my_langid := 1033, hooks := [], world := 0 }) ∧
      GetUserDefaultLCID_Hook (sampleHost "C:\\a.exe" [] [])
        { my_langid := 1033, hooks := [], world := 0 } =
        (1033, { my_langid := 1033, hooks := [], world := 0 }) :=
  have w := hooks_override (sampleHost "C:\\a.exe" [] [])
    { my_langid := 1033, hooks := [], world := 0 } (by decide)
  ⟨w.1, w.2.1, w.2.2.1⟩


/-! ## Installation -/

theorem setKernelFunctionHook_eq {σ : Type} (h : Host σ) (s : ModState σ) (e : EntryPoint) :
    setKernelFunctionHook h (h.GetModuleHandle "kernelbase.dll")
        (h.GetModuleHandle "kernel32.dll") s e.targetName e =
      if hookable h e then
        (true, { s with hooks := s.hooks ++ [⟨locate h e, e⟩] })
      else (false, s) := by
  unfold setKernelFunctionHook hookable locate Wh_SetFunctionHook
  by_cases h1 : h.GetProcAddress (h.GetModuleHandle "kernelbase.dll") e.targetName = 0
  · by_cases h2 : h.GetProcAddress (h.GetModuleHandle "kernel32.dll") e.targetName = 0
    · simp [h1, h2]
    · by_cases h3 : h.Wh_SetFunctionHook
          (h.GetProcAddress (h.GetModuleHandle "kernel32.dll") e.targetName) = true
      · simp [h1, h2, h3]
      · simp [h1, h2, h3]
  · by_cases h3 : h.Wh_SetFunctionHook
        (h.GetProcAddress (h.GetModuleHandle "kernelbase.dll") e.targetName) = true
    · simp [h1, h3]
    · simp [h1, h3]

theorem HookKernel32DllSymbols_eq {σ : Type} (h : Host σ) (s : ModState σ) :
    HookKernel32DllSymbols h s =
      (hookOrder.all (hookable h),
        { s with hooks := s.hooks ++
            (hookOrder.takeWhile (hookable h)).map (fun e => ⟨locate h e, e⟩) }) := by
  have e1 := setKernelFunctionHook_eq h s .GetUserDefaultUILanguage
  simp only [EntryPoint.targetName] at e1
  unfold HookKernel32DllSymbols
  simp only [e1]
  by_cases a1 : hookable h .GetUserDefaultUILanguage = true
  · have e2 := setKernelFunctionHook_eq h
      { s with hooks := s.hooks ++ [⟨locate h .GetUserDefaultUILanguage, .GetUserDefaultUILanguage⟩] }
      .GetUserDefaultLangID
    simp only [EntryPoint.targetName] at e2
    simp only [a1, if_true, e2]
    by_cases a2 : hookable h .GetUserDefaultLangID = true
    · have e3 := setKernelFunctionHook_eq h
        { s with hooks := (s.hooks ++
            [⟨locate h .GetUserDefaultUILanguage, .GetUserDefaultUILanguage⟩]) ++
            [⟨locate h .GetUserDefaultLangID, .GetUserDefaultLangID⟩] }
        .GetUserDefaultLCID
      simp only [EntryPoint.targetName] at e3
      simp only [a2, if_true, e3]
      by_cases a3 : hookable h .GetUserDefaultLCID = true
      · simp [hookOrder, a1, a2, a3, List.takeWhile]
      · simp [hookOrder, a1, a2, a3, List.takeWhile]
    · simp [hookOrder, a1, a2, List.takeWhile]
  · simp [hookOrder, a1, List.takeWhile]

theorem ModInit_eq {σ : Type} (h : Host σ) (s : ModState σ) :
    ModInit h s =
      (hookOrder.all (hookable h),
        { s with hooks := s.hooks ++
            (hookOrder.takeWhile (hookable h)).map (fun e => ⟨locate h e, e⟩) }) := by
  unfold ModInit
  rw [HookKernel32DllSymbols_eq]
  cases hookOrder.all (hookable h) <;> rfl

theorem Wh_ModInit_eq {σ : Type} (h : Host σ) (rules : List Rule) (s : ModState σ)
    (fuel : Nat) (hfuel : rules.length < fuel) :
    Wh_ModInit fuel (h.withRules rules) s =
      some (hookOrder.all (hookable h),
        { my_langid := firstMatch h.PathMatchSpecExW h.GetModuleFileNameW.2 rules
          hooks := s.hooks ++
            (hookOrder.takeWhile (hookable h)).map (fun e => ⟨locate h e, e⟩)
          world := s.world }) := by
  unfold Wh_ModInit
  rw [determine_my_langid_eq_firstMatch h rules s fuel hfuel]
  simp only [ModInit_eq]
  rfl

/-- When all three entry points can be located and hooked, activation reports
success and the host puts the three wrappers in force, after those already
requested. -/
theorem hostActivate_success {σ : Type} (h : Host σ) (rules : List Rule) (s : ModState σ)
    (fuel : Nat) (hfuel : rules.length < fuel) (hall : ∀ e, hookable h e = true) :
    hostActivate fuel (h.withRules rules) s =
      some (true, s.hooks.map (fun q => q.hookFunction) ++ hookOrder) := by
  unfold hostActivate
  rw [Wh_ModInit_eq h rules s fuel hfuel]
  simp [hookOrder, hall, List.takeWhile]

/-- C7 as stated fails: `GetModuleFileNameW` returns `0` and the override is
not `-1`. With an empty buffer the rule `*` matches and gives 1033; with a
buffer still holding `C:\bin\foo.exe` the rule `*\foo.exe` gives 2052. -/
theorem determine_my_langid_failed_path_overrides :
    (sampleHost "" [] []).GetModuleFileNameW.1 = 0 ∧
      determine_my_langid 2 ((sampleHost "" [] []).withRules [⟨"*", 1033⟩])
          (ModState.initial 0) =
        some { my_langid := 1033, hooks := [], world := 0 } ∧
      determine_my_langid 2
          (({ sampleHost "" [] [] with
              GetModuleFileNameW := (0, "C:\\bin\\foo.exe") } : Host Nat).withRules
            [⟨"*\\foo.exe", 2052⟩])
          (ModState.initial 0) =
        some { my_langid := 2052, hooks := [], world := 0 } := by
  decide

/-- C7, amended. When `GetModuleFileNameW` fails (returns `0`), recomputation
does nothing special: it returns, having matched the rules against the text
the buffer holds after the call, and stores the first-match resolution for
that text; this is `-1` when no configured rule matches that text. -/
theorem determine_my_langid_failed_path {σ : Type} (h : Host σ) (rules : List Rule)
    (s : ModState σ) (fuel : Nat) (_hfail : h.GetModuleFileNameW.1 = 0)
    (hfuel : rules.length < fuel) :
    determine_my_langid fuel (h.withRules rules) s =
        some { s with
          my_langid := firstMatch h.PathMatchSpecExW h.GetModuleFileNameW.2 rules } ∧
      ((∀ r ∈ configured rules,
          S_OK ≠ h.PathMatchSpecExW h.GetModuleFileNameW.2 r.glob PMSF_MULTIPLE) →
        determine_my_langid fuel (h.withRules rules) s = some { s with my_langid := -1 }) := by
  have hd := determine_my_langid_eq_firstMatch h rules s fuel hfuel
  refine ⟨hd, fun hno => ?_⟩
  have hnone : (configured rules).find?
      (fun r => decide (S_OK = h.PathMatchSpecExW h.GetModuleFileNameW.2 r.glob PMSF_MULTIPLE))
      = none := by
    rw [List.find?_eq_none]
    intro r hr
    simpa using hno r hr
  rw [hd]
  simp [firstMatch, hnone]

/-- Witness of C7, amended: the call fails with an empty buffer and the only
rule does not match the empty text. -/
theorem determine_my_langid_failed_path_witness :
    determine_my_langid 2 ((sampleHost "" [] []).withRules [⟨"*\\foo.exe", 2052⟩])
        { my_langid := 7, hooks := [], world := 0 } =
      some { my_langid := -1, hooks := [], world := 0 } :=
  (determine_my_langid_failed_path (sampleHost "" [] []) [⟨"*\\foo.exe", 2052⟩]
    { my_langid := 7, hooks := [], world := 0 } 2 (by decide) (by decide)).2 (by decide)

/-- C8. A rule with a non-empty pattern for which the matcher answers anything
other than `S_OK` (an error code included) is passed over: recomputation
returns, and its result with that rule in the list is its result with the
rule removed, the first-match resolution of the remaining rules. -/
theorem determine_my_langid_skips_rejected {σ : Type} (h : Host σ) (pre rest : List Rule)
    (r : Rule) (s : ModState σ) (fuel : Nat)
    (hne : r.glob ≠ "")
    (hbad : h.PathMatchSpecExW h.GetModuleFileNameW.2 r.glob PMSF_MULTIPLE ≠ S_OK)
    (hfuel : (pre ++ r :: rest).length < fuel) :
    determine_my_langid fuel (h.withRules (pre ++ r :: rest)) s =
        some { s with
          my_langid := firstMatch h.PathMatchSpecExW h.GetModuleFileNameW.2 (pre ++ rest) } ∧
      determine_my_langid fuel (h.withRules (pre ++ rest)) s =
        some { s with
          my_langid := firstMatch h.PathMatchSpecExW h.GetModuleFileNameW.2 (pre ++ rest) } := by
  have hlen : (pre ++ rest).length < fuel := by
    simp only [List.length_append, List.length_cons] at hfuel ⊢
    omega
  refine ⟨?_, determine_my_langid_eq_firstMatch h (pre ++ rest) s fuel hlen⟩
  rw [determine_my_langid_eq_firstMatch h (pre ++ r :: rest) s fuel hfuel,
    firstMatch_skip h.PathMatchSpecExW h.GetModuleFileNameW.2 pre rest r hne hbad]

/-- Witness of C8: the matcher answers `E_INVALIDARG` for the second rule; the
third rule then decides, and with no third rule the result is `-1`. -/
theorem determine_my_langid_skips_rejected_witness :
    determine_my_langid 4
        ((faultyHost "C:\\bin\\foo.exe").withRules
          [⟨"*\\bar.exe", 1031⟩, ⟨"[*", 1036⟩, ⟨"*\\foo.exe", 2052⟩])
        (ModState.initial 0) =
      some { my_langid := 2052, hooks := [], world := 0 } ∧
    determine_my_langid 3
        ((faultyHost "C:\\bin\\foo.exe").withRules [⟨"*\\bar.exe", 1031⟩, ⟨"[*", 1036⟩])
        { my_langid := 7, hooks := [], world := 0 } =
      some { my_langid := -1, hooks := [], world := 0 } :=
  ⟨(determine_my_langid_skips_rejected (faultyHost "C:\\bin\\foo.exe")
      [⟨"*\\bar.exe", 1031⟩] [⟨"*\\foo.exe", 2052⟩] ⟨"[*", 1036⟩ (ModState.initial 0) 4
      (by decide) (by decide) (by decide)).1.trans (by decide),
   (determine_my_langid_skips_rejected (faultyHost "C:\\bin\\foo.exe")
      [⟨"*\\bar.exe", 1031⟩] [] ⟨"[*", 1036⟩ { my_langid := 7, hooks := [], world := 0 } 3
      (by decide) (by decide) (by decide)).1.trans (by decide)⟩


/-! ## Lifecycle -/

theorem hookOf_my_langid {σ : Type} (e : EntryPoint) (h : Host σ) (s : ModState σ) :
    (hookOf e h s).2.my_langid = s.my_langid ∧ (hookOf e h s).2.hooks = s.hooks := by
  cases e <;>
    simp only [hookOf, GetUserDefaultUILanguage_Hook, GetUserDefaultLangID_Hook,
      GetUserDefaultLCID_Hook] <;>
    split <;> exact ⟨rfl, rfl⟩

theorem step_my_langid {σ : Type} (h : Host σ) (fuel : Nat) (s : ModState σ) (ev : Event)
    (hfuel : ∀ rules, ev.snapshot = some rules → rules.length < fuel) :
    ∃ s1, step fuel h s ev = some s1 ∧
      s1.my_langid =
        match ev.snapshot with
        | some rules => firstMatch h.PathMatchSpecExW h.GetModuleFileNameW.2 rules
        | none => s.my_langid := by
  cases ev with
  | Wh_ModInit rules =>
    have hd := determine_my_langid_eq_firstMatch h rules s fuel (hfuel rules rfl)
    refine ⟨(ModInit (h.withRules rules) { s with
      my_langid := firstMatch h.PathMatchSpecExW h.GetModuleFileNameW.2 rules }).2, ?_, ?_⟩
    · simp only [step, Wh_ModInit, hd]
    · simp [Event.snapshot, ModInit_eq]
  | Wh_ModSettingsChanged rules =>
    have hd := determine_my_langid_eq_firstMatch h rules s fuel (hfuel rules rfl)
    refine ⟨{ s with
      my_langid := firstMatch h.PathMatchSpecExW h.GetModuleFileNameW.2 rules }, ?_, ?_⟩
    · simp only [step, Wh_ModSettingsChanged, hd]
    · simp [Event.snapshot]
  | call e =>
    exact ⟨_, rfl, by simp [Event.snapshot, (hookOf_my_langid e h s).1]⟩

/-- C9. For every sequence of lifecycle events (activation, settings-changed
notifications, wrapper calls) applied to any state, with the fuel above the
length of every loaded rule list: the run returns, and the cell then equals
the first-match resolution of the rule list loaded by the most recent
`Wh_ModInit` or `Wh_ModSettingsChanged` event (if the sequence has none, the
cell is what it was). A wrapper call leaves the cell as it is, and the value a
recomputation stores is the same from any two previous states. -/
theorem my_langid_consistent {σ : Type} (h : Host σ) (fuel : Nat) (evs : List Event)
    (s : ModState σ)
    (hfuel : ∀ ev ∈ evs, ∀ rules, ev.snapshot = some rules → rules.length < fuel) :
    (∃ s', run fuel h s evs = some s' ∧
        s'.my_langid =
          match lastSnapshot evs with
          | some rules => firstMatch h.PathMatchSpecExW h.GetModuleFileNameW.2 rules
          | none => s.my_langid) ∧
      (∀ (e : EntryPoint) (t : ModState σ), (hookOf e h t).2.my_langid = t.my_langid) ∧
      (∀ (rules : List Rule) (t1 t2 : ModState σ),
        (determine_my_langid fuel (h.withRules rules) t1).map (fun t => t.my_langid) =
          (determine_my_langid fuel (h.withRules rules) t2).map (fun t => t.my_langid)) := by
  refine ⟨?_, fun e t => (hookOf_my_langid e h t).1, fun rules t1 t2 => ?_⟩
  · induction evs generalizing s with
    | nil => exact ⟨s, rfl, rfl⟩
    | cons ev evs ih =>
      obtain ⟨s1, hs1, hv1⟩ := step_my_langid h fuel s ev
        (fun rules hr => hfuel ev (List.mem_cons_self _ _) rules hr)
      obtain ⟨s', hs', hv'⟩ := ih s1 (fun ev' hm => hfuel ev' (List.mem_cons_of_mem _ hm))
      refine ⟨s', by simp only [run, hs1, hs'], ?_⟩
      rw [hv']
      simp only [lastSnapshot]
      cases hl : lastSnapshot evs with
      | some rules => rfl
      | none => simpa using hv1
  · simp only [determine_my_langid]
    generalize determine_loop (h.withRules rules) (h.withRules rules).GetModuleFileNameW.2
      fuel 0 = o
    cases o <;> rfl

/-- Witness of C9: activation with the `notepad.exe` rule, a wrapper call, a
settings change to a list whose first rule carries French, two more wrapper
calls; the cell ends at 1036. -/
theorem my_langid_consistent_witness :
    ∃ s', run 3 (sampleHost "C:\\Windows\\notepad.exe" []
        (hookOrder.map EntryPoint.targetName))
        (ModState.initial 0)
        [.Wh_ModInit [⟨"*\\notepad.exe", 1033⟩], .call .GetUserDefaultLCID,
         .Wh_ModSettingsChanged [⟨"*\\NOTEPAD.EXE;*\\calc.exe", 1036⟩, ⟨"*", 1033⟩],
         .call .GetUserDefaultUILanguage, .call .GetUserDefaultLangID] = some s' ∧
      s'.my_langid = 1036 :=
  (my_langid_consistent (sampleHost "C:\\Windows\\notepad.exe" []
        (hookOrder.map EntryPoint.targetName))
    3
    [.Wh_ModInit [⟨"*\\notepad.exe", 1033⟩], .call .GetUserDefaultLCID,
     .Wh_ModSettingsChanged [⟨"*\\NOTEPAD.EXE;*\\calc.exe", 1036⟩, ⟨"*", 1033⟩],
     .call .GetUserDefaultUILanguage, .call .GetUserDefaultLangID]
    (ModState.initial 0)
    (by
      intro ev hev rules hr
      simp only [List.mem_cons, List.mem_singleton, List.not_mem_nil, or_false] at hev
      rcases hev with rfl | rfl | rfl | rfl | rfl <;>
        simp only [Event.snapshot, Option.some.injEq] at hr <;>
        first
          | (subst hr; decide)
          | exact absurd hr (by simp))).1

/-! ## Termination and probes -/

/-- C10. For every store with an empty pattern at some index `k` and every
path in the buffer, the probing loop returns once the fuel exceeds `j`, the
first index whose pattern is empty or matches; `j ≤ k`, and the loop reads
patterns at the indices `0..j` and nowhere else, so at most `k + 1` of them
(`k` can be the length of the rule list, where the store answers the empty
pattern). -/
theorem determine_loop_probes {σ : Type} (h : Host σ) (buf : String) (k : Nat)
    (hk : h.Wh_GetStringSetting k = "") :
    ∃ j, j ≤ k ∧ stops h buf j ∧ (∀ m, m < j → ¬ stops h buf m) ∧
      ∀ fuel, j < fuel → ∃ r, determine_loop h buf fuel 0 = some r ∧
        r.probes = List.range (j + 1) ∧ r.probes.length ≤ k + 1 := by
  obtain ⟨j, hjk, hstop, hmin, hrun⟩ := determine_loop_first_stop h buf k hk
  refine ⟨j, hjk, hstop, hmin, fun fuel hf => ⟨_, hrun fuel hf, rfl, ?_⟩⟩
  simp only [List.length_range]
  omega

/-- Witness of C10: three rules, the second matches; the store answers the
empty pattern at index 3, and the loop reads the patterns at indices 0
and 1. -/
theorem determine_loop_probes_witness :
    ∃ j, j ≤ 3 ∧
      ∀ fuel, j < fuel → ∃ r,
        determine_loop
          (sampleHost "C:\\bin\\foo.exe"
            [⟨"*\\bar.exe", 1031⟩, ⟨"*\\foo.exe", 2052⟩, ⟨"*", 1033⟩] [])
          "C:\\bin\\foo.exe" fuel 0 = some r ∧
        r.probes = List.range (j + 1) ∧ r.probes.length ≤ 3 + 1 :=
  match determine_loop_probes
      (sampleHost "C:\\bin\\foo.exe"
        [⟨"*\\bar.exe", 1031⟩, ⟨"*\\foo.exe", 2052⟩, ⟨"*", 1033⟩] [])
      "C:\\bin\\foo.exe" 3 (by decide) with
  | ⟨j, hj, _, _, hrun⟩ => ⟨j, hj, hrun⟩


end PerAppLanguage
